import Mathlib

/-!
Shallow embedding of the NEO close-approach query engine
(`models.py`, `database.py`, `filters.py`).

Modelling conventions:
* Python floats for distance / velocity / diameter are modelled as `Int`
  (no claim depends on fractional values or NaN arithmetic);
* a Python `datetime` is a pair of a calendar date and a time of day,
  each modelled as `Int` (only the calendar-date projection is compared);
* the `neo` back-reference held by a `CloseApproach` is modelled as the
  index of the NEO inside the NEO list of the database (Python stores a
  reference into that same list);
* the `approaches` list of a NEO is modelled as the list of indices (input
  positions) of the appended approaches, which captures Python object
  identity of the appended references;
* Python exceptions are modelled with `Except PyError`;
* a Python `dict` is modelled as a function `String → Option Nat`
  updated by overwriting, exactly the semantics of `d[k] = v`.
-/

/-- A Python datetime: a calendar date plus a time of day. -/
structure PyDatetime where
  date : Int
  timeOfDay : Int
deriving DecidableEq

/-- models.py `NearEarthObject`: designation, optional name, diameter,
hazardous flag, and the (initially empty) list of linked approaches,
stored as indices of the approaches in the input order of the database. -/
structure NearEarthObject where
  designation : String
  name : Option String
  diameter : Int
  hazardous : Bool
  approaches : List Nat
deriving DecidableEq

/-- models.py `CloseApproach`: designation (foreign key), time, distance,
velocity, and the optional back-reference to the linked NEO (an index
into the NEO list of the database; `none` while unlinked). -/
structure CloseApproach where
  designation : String
  time : PyDatetime
  distance : Int
  velocity : Int
  neo : Option Nat
deriving DecidableEq

/-- models.py `CloseApproach.__init__` when the loader supplies no `neo`
keyword: `self.neo = close_approach_kwargs.get(...)` with key `neo` leaves `neo`
unset (`None`). -/
def CloseApproach.init (designation : String) (time : PyDatetime)
    (velocity distance : Int) : CloseApproach :=
  { designation := designation, time := time, distance := distance,
    velocity := velocity, neo := none }

/-- models.py `NearEarthObject.__init__`: `self.approaches = []`. -/
def NearEarthObject.init (designation : String) (name : Option String)
    (diameter : Int) (hazardous : Bool) : NearEarthObject :=
  { designation := designation, name := name, diameter := diameter,
    hazardous := hazardous, approaches := [] }

/-- Python exceptions that the modelled code can raise. -/
inductive PyError
  | unsupportedCriterion
  | attributeError
deriving DecidableEq

/-- Which attribute a filter extracts: the five concrete subclasses of
`AttributeFilter` in filters.py, plus `base` for the superclass itself,
whose `get` raises `UnsupportedCriterionError`. -/
inductive FilterKind
  | base
  | distance
  | diameter
  | velocity
  | hazardous
  | date
deriving DecidableEq

/-- The comparators `create_filters` uses: `operator.eq`, `operator.le`,
`operator.ge`. -/
inductive CmpOp
  | eq
  | le
  | ge
deriving DecidableEq

/-- A value an attribute filter compares: a number (distance, velocity,
diameter), a calendar date, or a boolean (hazardous). -/
inductive FilterValue
  | vnum (x : Int)
  | vdate (d : Int)
  | vbool (b : Bool)
deriving DecidableEq

/-- filters.py `AttributeFilter(op, value)` together with the dynamic
class of the object, flattened to a tagged record: the class determines
`get`, and `op`/`value` are the constructor arguments. -/
structure AttributeFilter where
  kind : FilterKind
  op : CmpOp
  value : FilterValue
deriving DecidableEq

/-- Applying one of the three comparators to the extracted attribute
(left) and the reference value (right), as `self.op(self.get(approach),
self.value)` does. -/
def applyCmp : CmpOp → FilterValue → FilterValue → Bool
  | .eq, x, y => decide (x = y)
  | .le, .vnum x, .vnum y => decide (x ≤ y)
  | .le, .vdate x, .vdate y => decide (x ≤ y)
  | .le, _, _ => false
  | .ge, .vnum x, .vnum y => decide (y ≤ x)
  | .ge, .vdate x, .vdate y => decide (y ≤ x)
  | .ge, _, _ => false

/-- The `get` classmethod of each filter class. The base class raises
`UnsupportedCriterionError`; `DistanceFilter`/`VelocityFilter` read the
approach, `DateFilter` reads the calendar-date part of `approach.time`,
and `DiameterFilter`/`HazardousFilter` dereference `approach.neo`
(raising `AttributeError` when `neo` is `None`, as `None.diameter`
would). `neos` is the database NEO list the back-reference indexes. -/
def AttributeFilter.get (neos : List NearEarthObject) :
    FilterKind → CloseApproach → Except PyError FilterValue
  | .base, _ => .error .unsupportedCriterion
  | .distance, a => .ok (.vnum a.distance)
  | .velocity, a => .ok (.vnum a.velocity)
  | .date, a => .ok (.vdate a.time.date)
  | .diameter, a =>
    match a.neo with
    | none => .error .attributeError
    | some i =>
      match neos[i]? with
      | some neo => .ok (.vnum neo.diameter)
      | none => .error .attributeError
  | .hazardous, a =>
    match a.neo with
    | none => .error .attributeError
    | some i =>
      match neos[i]? with
      | some neo => .ok (.vbool neo.hazardous)
      | none => .error .attributeError

/-- filters.py `AttributeFilter.__call__`:
`self.op(self.get(approach), self.value)`. -/
def evalFilter (neos : List NearEarthObject) (f : AttributeFilter)
    (a : CloseApproach) : Except PyError Bool :=
  match AttributeFilter.get neos f.kind a with
  | .error e => .error e
  | .ok v => .ok (applyCmp f.op v f.value)

/-- The optional criteria accepted by filters.py `create_filters`
(each defaults to `None` in the source). -/
structure FilterCriteria where
  date : Option Int
  start_date : Option Int
  end_date : Option Int
  distance_min : Option Int
  distance_max : Option Int
  velocity_min : Option Int
  velocity_max : Option Int
  diameter_min : Option Int
  diameter_max : Option Int
  hazardous : Option Bool
deriving DecidableEq

/-- One `if date: specified_filters.append(DateFilter(op, date))` step of
`create_filters`: a `date` object is always truthy, so only `None` is
skipped. -/
def dateSegment (o : CmpOp) : Option Int → List AttributeFilter
  | some d => [⟨.date, o, .vdate d⟩]
  | none => []

/-- One `if value: specified_filters.append(K(op, value))` step of
`create_filters` for a numeric criterion: Python truthiness skips both
`None` and the number `0`. -/
def numSegment (k : FilterKind) (o : CmpOp) : Option Int → List AttributeFilter
  | some q => if q = 0 then [] else [⟨k, o, .vnum q⟩]
  | none => []

/-- The `if hazardous is not None:` step of `create_filters`: tested with
`is not None`, so `False` still appends its filter. -/
def hazardousSegment : Option Bool → List AttributeFilter
  | some b => [⟨.hazardous, .eq, .vbool b⟩]
  | none => []

/-- filters.py `create_filters`: sequential conditional appends, in
source order (date, start, end, velocity min/max, distance min/max,
hazardous, diameter min/max). -/
def create_filters (c : FilterCriteria) : List AttributeFilter :=
  dateSegment .eq c.date ++
  dateSegment .ge c.start_date ++
  dateSegment .le c.end_date ++
  numSegment .velocity .ge c.velocity_min ++
  numSegment .velocity .le c.velocity_max ++
  numSegment .distance .ge c.distance_min ++
  numSegment .distance .le c.distance_max ++
  hazardousSegment c.hazardous ++
  numSegment .diameter .ge c.diameter_min ++
  numSegment .diameter .le c.diameter_max

/-- filters.py `limit`: `if n == 0 or n is None: return iterator` else
`list(itertools.islice(iterator, 0, n))`. -/
def limit (iterator : List α) (n : Option Nat) : List α :=
  match n with
  | none => iterator
  | some 0 => iterator
  | some m => iterator.take m

/-- Python `str.upper()` (ASCII-faithful). -/
def pyUpper (s : String) : String :=
  s.toUpper

/-- Python `str.capitalize()`: first character title-cased, all
remaining characters lowercased. -/
def pyCapitalize (s : String) : String :=
  match s.data with
  | [] => ""
  | c :: cs => ⟨c.toUpper :: cs.map Char.toLower⟩

/-- The in-memory Python dict `designations_with_indices`, modelled as a
lookup function updated by overwriting. -/
def PyDict := String → Option Nat

/-- The loop `for index, neo in enumerate(self._neos):
designations_with_indices[neo.designation] = index`, with the running
index made explicit. Later assignments to the same key overwrite. -/
def buildDictFrom : Nat → List NearEarthObject → PyDict → PyDict
  | _, [], m => m
  | i, neo :: rest, m =>
    buildDictFrom (i + 1) rest
      (fun k => if k = neo.designation then some i else m k)

/-- The finished `designations_with_indices` dict of
`NEODatabase.__init__`. -/
def buildDict (neos : List NearEarthObject) : PyDict :=
  buildDictFrom 0 neos (fun _ => none)

/-- Replace the element at one position of a list (Python
`self._neos[i]` mutation); positions past the end change nothing. -/
def updateAt : List NearEarthObject → Nat → (NearEarthObject → NearEarthObject) →
    List NearEarthObject
  | [], _, _ => []
  | x :: xs, 0, f => f x :: xs
  | x :: xs, n + 1, f => x :: updateAt xs n f

/-- The linkage loop of `NEODatabase.__init__` over the approaches, with
the position of the current approach made explicit (`k`): when the
designation of the approach is in the dict, set its `neo` to the mapped NEO
index and append the approach (its position) to the `approaches` list of that NEO
list; otherwise leave both untouched. Returns the updated approaches
and the updated NEO list. -/
def linkApproaches (dict : PyDict) :
    Nat → List CloseApproach → List NearEarthObject →
    List CloseApproach × List NearEarthObject
  | _, [], neos => ([], neos)
  | k, a :: rest, neos =>
    match dict a.designation with
    | some i =>
      let neos1 := updateAt neos i
        (fun neo => { neo with approaches := neo.approaches ++ [k] })
      let r := linkApproaches dict (k + 1) rest neos1
      ({ a with neo := some i } :: r.1, r.2)
    | none =>
      let r := linkApproaches dict (k + 1) rest neos
      (a :: r.1, r.2)

/-- database.py `NEODatabase`: the NEO collection and the approach
collection, after the linkage pass of the constructor. -/
structure NEODatabase where
  neos : List NearEarthObject
  approaches : List CloseApproach
deriving DecidableEq

/-- database.py `NEODatabase.__init__`: build the designation dict, then
run the linkage loop. -/
def NEODatabase.init (neos : List NearEarthObject)
    (approaches : List CloseApproach) : NEODatabase :=
  let dict := buildDict neos
  let r := linkApproaches dict 0 approaches neos
  { neos := r.2, approaches := r.1 }

/-- database.py `get_neo_by_designation`: linear scan, first NEO whose
designation equals `designation.upper()`, else `None`. -/
def NEODatabase.get_neo_by_designation (db : NEODatabase)
    (designation : String) : Option NearEarthObject :=
  db.neos.find? (fun neo => neo.designation == pyUpper designation)

/-- database.py `get_neo_by_name`: linear scan, first NEO whose name
equals `name.capitalize()`, else `None`. An unnamed NEO (`name = none`)
never matches, as Python `None == str` is false. -/
def NEODatabase.get_neo_by_name (db : NEODatabase)
    (name : String) : Option NearEarthObject :=
  db.neos.find? (fun neo => neo.name == some (pyCapitalize name))

/-- The loop body of database.py `check_approach_against_filters`, with
the running `match_filter` flag explicit: every filter is evaluated (no
short-circuit), and the flag drops to `False` at a failing filter. An
exception from a filter propagates. -/
def checkLoop (neos : List NearEarthObject) (a : CloseApproach) :
    List AttributeFilter → Bool → Except PyError Bool
  | [], m => .ok m
  | f :: rest, m =>
    match evalFilter neos f a with
    | .error e => .error e
    | .ok b => checkLoop neos a rest (if b then m else false)

/-- database.py `check_approach_against_filters`: `match_filter` starts
`True`. -/
def check_approach_against_filters (neos : List NearEarthObject)
    (a : CloseApproach) (filters : List AttributeFilter) :
    Except PyError Bool :=
  checkLoop neos a filters true

/-- The filtering loop of database.py `query` (the `if filters:`
branch): yield, in stored order, each approach that satisfies all
filters; an exception raised while checking propagates. -/
def queryLoop (neos : List NearEarthObject) (filters : List AttributeFilter) :
    List CloseApproach → Except PyError (List CloseApproach)
  | [] => .ok []
  | a :: rest =>
    match check_approach_against_filters neos a filters with
    | .error e => .error e
    | .ok true =>
      match queryLoop neos filters rest with
      | .error e => .error e
      | .ok ys => .ok (a :: ys)
    | .ok false => queryLoop neos filters rest

/-- database.py `query`: an empty (falsy) filter collection yields every
approach unfiltered; otherwise run the filtering loop. The
yields of the generator are collected into a list. -/
def NEODatabase.query (db : NEODatabase) (filters : List AttributeFilter) :
    Except PyError (List CloseApproach) :=
  if filters.isEmpty then .ok db.approaches
  else queryLoop db.neos filters db.approaches

/-- State-threaded rendering of the `query` generator: the database is
carried through every iteration so that the absence of mutation is a
provable statement rather than a convention. Accumulates the yields;
stops at a raised exception. -/
def queryLoopST (filters : List AttributeFilter) :
    List CloseApproach → List CloseApproach → NEODatabase →
    Except PyError (List CloseApproach) × NEODatabase
  | [], acc, st => (.ok acc, st)
  | a :: rest, acc, st =>
    match check_approach_against_filters st.neos a filters with
    | .error e => (.error e, st)
    | .ok true => queryLoopST filters rest (acc ++ [a]) st
    | .ok false => queryLoopST filters rest acc st

/-- State-threaded database.py `query`: returns the yielded stream and
the database as the loop leaves it. -/
def NEODatabase.queryST (db : NEODatabase) (filters : List AttributeFilter) :
    Except PyError (List CloseApproach) × NEODatabase :=
  if filters.isEmpty then (.ok db.approaches, db)
  else queryLoopST filters db.approaches [] db

/-- The sub-collection of a filter collection whose members extract a
given attribute and use a given comparator (used to state what
`create_filters` produced for one criterion). -/
def filtersFor (fs : List AttributeFilter) (k : FilterKind) (o : CmpOp) :
    List AttributeFilter :=
  fs.filter (fun f => f.kind == k && f.op == o)

/-- The attribute/comparator combinations `create_filters` can emit:
equality for the exact-date and hazardous criteria, greater-or-equal or
less-or-equal bounds for dates and the three numeric attributes. -/
def validKindOp (f : AttributeFilter) : Bool :=
  match f.kind, f.op with
  | .date, _ => true
  | .velocity, .ge => true
  | .velocity, .le => true
  | .distance, .ge => true
  | .distance, .le => true
  | .diameter, .ge => true
  | .diameter, .le => true
  | .hazardous, .eq => true
  | _, _ => false

/-- Modelled from the spec: the lookup key the name-lookup claim
describes, namely the query string with its first letter capitalized
and the rest of the string unchanged (this is not what Python
`str.capitalize()` computes, which also lowercases the rest). -/
def capFirstRestUnchanged (s : String) : String :=
  match s.data with
  | [] => ""
  | c :: cs => ⟨c.toUpper :: cs⟩

/-- The approaches of a list paired with their positions, starting at a
given position (the `enumerate` view of the linkage loop). -/
def enumFromIdx : Nat → List CloseApproach → List (Nat × CloseApproach)
  | _, [] => []
  | k, a :: rest => (k, a) :: enumFromIdx (k + 1) rest

/-- The positions (starting at `k`) of the approaches of a list that
the dict maps to NEO index `j`: exactly the approach indices the
linkage loop appends to the `approaches` list of NEO `j`. -/
def linkTargets (dict : PyDict) (k : Nat) (as : List CloseApproach)
    (j : Nat) : List Nat :=
  ((enumFromIdx k as).filter (fun p => dict p.2.designation == some j)).map Prod.fst

/-- Criteria record with every criterion absent. -/
def noCriteria : FilterCriteria :=
  { date := none, start_date := none, end_date := none,
    distance_min := none, distance_max := none,
    velocity_min := none, velocity_max := none,
    diameter_min := none, diameter_max := none, hazardous := none }

/-- Criteria supplying only a zero-valued minimum-distance bound. -/
def zeroDistMinCriteria : FilterCriteria :=
  { noCriteria with distance_min := some 0 }

/-- A concrete NEO whose stored name has an uppercase second letter. -/
def neoUpperName : NearEarthObject :=
  { designation := "X1", name := some "AB", diameter := 1,
    hazardous := false, approaches := [] }

/-- A one-NEO database for exercising name lookup. -/
def dbUpperName : NEODatabase :=
  { neos := [neoUpperName], approaches := [] }

/-- A concrete NEO for the end-to-end witnesses. -/
def neoW : NearEarthObject :=
  NearEarthObject.init "EROS" (some "Eros") 16 false

/-- A second NEO sharing the designation of `neoW2dup` below. -/
def neoW2 : NearEarthObject :=
  NearEarthObject.init "2020 AB" none 3 true

/-- A duplicate-designation NEO (same designation as `neoW2`, appearing
later in the input). -/
def neoW2dup : NearEarthObject :=
  NearEarthObject.init "2020 AB" (some "Later") 4 false

/-- A close approach linked to `neoW` in the witnesses. -/
def appW1 : CloseApproach :=
  CloseApproach.init "EROS" ⟨100, 0⟩ 5 3

/-- A second close approach of `neoW`, farther away. -/
def appW2 : CloseApproach :=
  CloseApproach.init "EROS" ⟨200, 30⟩ 7 9

/-- An orphan close approach: no NEO bears its designation. -/
def appOrphan : CloseApproach :=
  CloseApproach.init "NOPE" ⟨300, 0⟩ 1 1

/-- An approach bearing the duplicated designation. -/
def appDup : CloseApproach :=
  CloseApproach.init "2020 AB" ⟨400, 0⟩ 2 2

/-- A concrete database built by the modelled constructor: one ordinary
NEO, a duplicated designation, two linked approaches, an orphan and an
approach linked to the duplicate. -/
def dbW : NEODatabase :=
  NEODatabase.init [neoW, neoW2, neoW2dup] [appW1, appW2, appOrphan, appDup]

/-- A concrete filter collection: distance at most 5. -/
def filtersW : List AttributeFilter :=
  create_filters { noCriteria with distance_max := some 5 }
/-- Decidable equality for the `Except` results of the modelled code
(used to evaluate filter verdicts on concrete inputs). -/
instance {ε α : Type} [DecidableEq ε] [DecidableEq α] :
    DecidableEq (Except ε α) := fun x y =>
  match x, y with
  | .error e1, .error e2 =>
    match decEq e1 e2 with
    | isTrue h => isTrue (by rw [h])
    | isFalse h => isFalse (fun hc => by cases hc; exact h rfl)
  | .ok a1, .ok a2 =>
    match decEq a1 a2 with
    | isTrue h => isTrue (by rw [h])
    | isFalse h => isFalse (fun hc => by cases hc; exact h rfl)
  | .error _, .ok _ => isFalse (fun hc => by cases hc)
  | .ok _, .error _ => isFalse (fun hc => by cases hc)



/-- Lemma: the state-threaded query loop returns the database it was
given, and its yields are the yields of the plain loop after the
accumulator. -/
theorem queryLoopST_eq (filters : List AttributeFilter)
    (l : List CloseApproach) (acc : List CloseApproach) (st : NEODatabase) :
    queryLoopST filters l acc st =
      ((match queryLoop st.neos filters l with
        | .error e => .error e
        | .ok ys => .ok (acc ++ ys)), st) := by
  induction l generalizing acc with
  | nil => simp [queryLoopST, queryLoop]
  | cons a rest ih =>
    rw [queryLoopST, queryLoop]
    cases h : check_approach_against_filters st.neos a filters with
    | error e => rfl
    | ok b =>
      cases b with
      | true =>
        rw [ih]
        cases queryLoop st.neos filters rest <;> simp
      | false => exact ih acc

/-- C8: evaluating `query` and consuming its whole result stream leaves
the database, hence every field of every NEO and every close approach
in it, unchanged, and produces exactly the stream of the plain
`query`. -/
theorem query_mutates_nothing (db : NEODatabase)
    (filters : List AttributeFilter) :
    (db.queryST filters).2 = db ∧
    (db.queryST filters).1 = db.query filters := by
  unfold NEODatabase.queryST NEODatabase.query
  by_cases h : filters.isEmpty
  · simp [h]
  · rw [if_neg h, if_neg h, queryLoopST_eq]
    refine ⟨rfl, ?_⟩
    cases queryLoop db.neos filters db.approaches <;> simp

/-- C5: `limit` with bound `None` or `0` is an unbounded passthrough,
and with a positive bound yields exactly the first `min(n, len(seq))`
items of the sequence, in original order. -/
theorem limit_spec {α : Type} (seq : List α) (n : Nat) (h : 0 < n) :
    limit seq none = seq ∧
    limit seq (some 0) = seq ∧
    limit seq (some n) = seq.take n ∧
    (limit seq (some n)).length = min n seq.length := by
  have htake : limit seq (some n) = seq.take n := by
    cases n with
    | zero => exact absurd h (by simp)
    | succ m => rfl
  exact ⟨rfl, rfl, htake, by rw [htake, List.length_take]⟩

/-- Witness for C5 at a concrete sequence and bound. -/
theorem limit_spec_witness :
    0 < 2 ∧
    (limit [10, 20, 30] none = [10, 20, 30] ∧
     limit [10, 20, 30] (some 0) = [10, 20, 30] ∧
     limit [10, 20, 30] (some 2) = [10, 20, 30].take 2 ∧
     (limit [10, 20, 30] (some 2)).length = min 2 [10, 20, 30].length) :=
  ⟨by decide, limit_spec [10, 20, 30] 2 (by decide)⟩

/-- C9: invoking attribute extraction through the base filter type
raises `UnsupportedCriterionError`, and none of the five concrete
filter kinds ever produces that error. -/
theorem base_get_unsupported (neos : List NearEarthObject)
    (a : CloseApproach) :
    AttributeFilter.get neos .base a = .error .unsupportedCriterion ∧
    ∀ k : FilterKind, k ≠ .base →
      AttributeFilter.get neos k a ≠ .error .unsupportedCriterion := by
  refine ⟨rfl, ?_⟩
  intro k hk
  cases k with
  | base => exact absurd rfl hk
  | distance => simp [AttributeFilter.get]
  | velocity => simp [AttributeFilter.get]
  | date => simp [AttributeFilter.get]
  | diameter =>
    cases hneo : a.neo with
    | none => simp [AttributeFilter.get, hneo]
    | some i =>
      cases hg : neos[i]? with
      | none => simp [AttributeFilter.get, hneo, hg]
      | some neo => simp [AttributeFilter.get, hneo, hg]
  | hazardous =>
    cases hneo : a.neo with
    | none => simp [AttributeFilter.get, hneo]
    | some i =>
      cases hg : neos[i]? with
      | none => simp [AttributeFilter.get, hneo, hg]
      | some neo => simp [AttributeFilter.get, hneo, hg]

/-- C10: evaluating a diameter or hazardous filter on an approach whose
`neo` back-reference is unset raises `AttributeError` (rather than
treating the approach as a non-match). -/
theorem orphan_neo_filters_raise (neos : List NearEarthObject)
    (a : CloseApproach) (h : a.neo = none) (o : CmpOp) (v : FilterValue) :
    evalFilter neos ⟨.diameter, o, v⟩ a = .error .attributeError ∧
    evalFilter neos ⟨.hazardous, o, v⟩ a = .error .attributeError := by
  constructor <;> simp [evalFilter, AttributeFilter.get, h]

/-- Witness for C10: the orphan approach of the concrete database. -/
theorem orphan_neo_filters_raise_witness :
    appOrphan.neo = none ∧
    (evalFilter dbW.neos ⟨.diameter, .ge, .vnum 1⟩ appOrphan
        = .error .attributeError ∧
     evalFilter dbW.neos ⟨.hazardous, .ge, .vnum 1⟩ appOrphan
        = .error .attributeError) :=
  ⟨rfl, orphan_neo_filters_raise dbW.neos appOrphan rfl .ge (.vnum 1)⟩

/-- Lemma: the per-criterion projection distributes over appends. -/
theorem filtersFor_append (l1 l2 : List AttributeFilter) (k : FilterKind)
    (o : CmpOp) :
    filtersFor (l1 ++ l2) k o = filtersFor l1 k o ++ filtersFor l2 k o := by
  simp [filtersFor, List.filter_append]

/-- Lemma: a date segment survives its own projection whole. -/
theorem filtersFor_dateSegment_self (o : CmpOp) (x : Option Int) :
    filtersFor (dateSegment o x) .date o = dateSegment o x := by
  cases x <;> simp [dateSegment, filtersFor]

/-- Lemma: a date segment vanishes under any other projection. -/
theorem filtersFor_dateSegment_nil (o : CmpOp) (x : Option Int)
    (K : FilterKind) (O : CmpOp) (h : ¬(FilterKind.date = K ∧ o = O)) :
    filtersFor (dateSegment o x) K O = [] := by
  cases x with
  | none => rfl
  | some d => simp [dateSegment, filtersFor]; exact fun h1 h2 => h ⟨h1, h2⟩

/-- Lemma: a numeric segment survives its own projection whole. -/
theorem filtersFor_numSegment_self (k : FilterKind) (o : CmpOp)
    (x : Option Int) :
    filtersFor (numSegment k o x) k o = numSegment k o x := by
  cases x with
  | none => rfl
  | some q => by_cases hq : q = 0 <;> simp [numSegment, hq, filtersFor]

/-- Lemma: a numeric segment vanishes under any other projection. -/
theorem filtersFor_numSegment_nil (k : FilterKind) (o : CmpOp)
    (x : Option Int) (K : FilterKind) (O : CmpOp)
    (h : ¬(k = K ∧ o = O)) :
    filtersFor (numSegment k o x) K O = [] := by
  cases x with
  | none => rfl
  | some q =>
    by_cases hq : q = 0
    · simp [numSegment, hq, filtersFor]
    · simp [numSegment, hq, filtersFor]; exact fun h1 h2 => h ⟨h1, h2⟩

/-- Lemma: the hazardous segment survives its own projection whole. -/
theorem filtersFor_hazardousSegment_self (x : Option Bool) :
    filtersFor (hazardousSegment x) .hazardous .eq = hazardousSegment x := by
  cases x <;> simp [hazardousSegment, filtersFor]

/-- Lemma: the hazardous segment vanishes under any other projection. -/
theorem filtersFor_hazardousSegment_nil (x : Option Bool)
    (K : FilterKind) (O : CmpOp)
    (h : ¬(FilterKind.hazardous = K ∧ CmpOp.eq = O)) :
    filtersFor (hazardousSegment x) K O = [] := by
  cases x with
  | none => rfl
  | some b => simp [hazardousSegment, filtersFor]; exact fun h1 h2 => h ⟨h1, h2⟩

/-- Lemma: every filter a date segment emits has a valid
attribute/comparator combination. -/
theorem dateSegment_all_valid (o : CmpOp) (x : Option Int) :
    (dateSegment o x).all validKindOp = true := by
  cases x <;> simp [dateSegment, validKindOp]

/-- Lemma: every filter a numeric segment emits has a valid
attribute/comparator combination, provided the combination is valid. -/
theorem numSegment_all_valid (k : FilterKind) (o : CmpOp) (x : Option Int)
    (h : validKindOp ⟨k, o, .vnum 0⟩ = true) :
    (numSegment k o x).all validKindOp = true := by
  cases x with
  | none => rfl
  | some q =>
    by_cases hq : q = 0
    · simp [numSegment, hq]
    · simpa [numSegment, hq] using h

/-- Lemma: every filter the hazardous segment emits has a valid
attribute/comparator combination. -/
theorem hazardousSegment_all_valid (x : Option Bool) :
    (hazardousSegment x).all validKindOp = true := by
  cases x <;> simp [hazardousSegment, validKindOp]

/-- C3 (amended): `create_filters` produces, for each criterion that is
supplied and truthy, exactly the one predicate with that criterion's
attribute, comparator (equal for exact-date and hazardous,
greater-or-equal for min/start bounds, less-or-equal for max/end
bounds) and value; criteria that are absent — or numeric min/max
criteria supplied as zero, which Python truthiness treats as absent —
produce no predicate; and nothing else is produced. -/
theorem create_filters_spec (c : FilterCriteria) :
    filtersFor (create_filters c) .date .eq
      = (match c.date with
         | some d => [⟨.date, .eq, .vdate d⟩]
         | none => []) ∧
    filtersFor (create_filters c) .date .ge
      = (match c.start_date with
         | some d => [⟨.date, .ge, .vdate d⟩]
         | none => []) ∧
    filtersFor (create_filters c) .date .le
      = (match c.end_date with
         | some d => [⟨.date, .le, .vdate d⟩]
         | none => []) ∧
    filtersFor (create_filters c) .velocity .ge
      = (match c.velocity_min with
         | some q => if q = 0 then [] else [⟨.velocity, .ge, .vnum q⟩]
         | none => []) ∧
    filtersFor (create_filters c) .velocity .le
      = (match c.velocity_max with
         | some q => if q = 0 then [] else [⟨.velocity, .le, .vnum q⟩]
         | none => []) ∧
    filtersFor (create_filters c) .distance .ge
      = (match c.distance_min with
         | some q => if q = 0 then [] else [⟨.distance, .ge, .vnum q⟩]
         | none => []) ∧
    filtersFor (create_filters c) .distance .le
      = (match c.distance_max with
         | some q => if q = 0 then [] else [⟨.distance, .le, .vnum q⟩]
         | none => []) ∧
    filtersFor (create_filters c) .hazardous .eq
      = (match c.hazardous with
         | some b => [⟨.hazardous, .eq, .vbool b⟩]
         | none => []) ∧
    filtersFor (create_filters c) .diameter .ge
      = (match c.diameter_min with
         | some q => if q = 0 then [] else [⟨.diameter, .ge, .vnum q⟩]
         | none => []) ∧
    filtersFor (create_filters c) .diameter .le
      = (match c.diameter_max with
         | some q => if q = 0 then [] else [⟨.diameter, .le, .vnum q⟩]
         | none => []) ∧
    (create_filters c).all validKindOp = true := by
  refine ⟨?_, ?_, ?_, ?_, ?_, ?_, ?_, ?_, ?_, ?_, ?_⟩
  · show filtersFor (create_filters c) .date .eq = dateSegment .eq c.date
    simp only [create_filters, filtersFor_append]
    rw [filtersFor_dateSegment_self,
        filtersFor_dateSegment_nil .ge c.start_date .date .eq (by decide),
        filtersFor_dateSegment_nil .le c.end_date .date .eq (by decide),
        filtersFor_numSegment_nil .velocity .ge c.velocity_min .date .eq (by decide),
        filtersFor_numSegment_nil .velocity .le c.velocity_max .date .eq (by decide),
        filtersFor_numSegment_nil .distance .ge c.distance_min .date .eq (by decide),
        filtersFor_numSegment_nil .distance .le c.distance_max .date .eq (by decide),
        filtersFor_hazardousSegment_nil c.hazardous .date .eq (by decide),
        filtersFor_numSegment_nil .diameter .ge c.diameter_min .date .eq (by decide),
        filtersFor_numSegment_nil .diameter .le c.diameter_max .date .eq (by decide)]
    simp
  · show filtersFor (create_filters c) .date .ge = dateSegment .ge c.start_date
    simp only [create_filters, filtersFor_append]
    rw [filtersFor_dateSegment_self,
        filtersFor_dateSegment_nil .eq c.date .date .ge (by decide),
        filtersFor_dateSegment_nil .le c.end_date .date .ge (by decide),
        filtersFor_numSegment_nil .velocity .ge c.velocity_min .date .ge (by decide),
        filtersFor_numSegment_nil .velocity .le c.velocity_max .date .ge (by decide),
        filtersFor_numSegment_nil .distance .ge c.distance_min .date .ge (by decide),
        filtersFor_numSegment_nil .distance .le c.distance_max .date .ge (by decide),
        filtersFor_hazardousSegment_nil c.hazardous .date .ge (by decide),
        filtersFor_numSegment_nil .diameter .ge c.diameter_min .date .ge (by decide),
        filtersFor_numSegment_nil .diameter .le c.diameter_max .date .ge (by decide)]
    simp
  · show filtersFor (create_filters c) .date .le = dateSegment .le c.end_date
    simp only [create_filters, filtersFor_append]
    rw [filtersFor_dateSegment_self,
        filtersFor_dateSegment_nil .eq c.date .date .le (by decide),
        filtersFor_dateSegment_nil .ge c.start_date .date .le (by decide),
        filtersFor_numSegment_nil .velocity .ge c.velocity_min .date .le (by decide),
        filtersFor_numSegment_nil .velocity .le c.velocity_max .date .le (by decide),
        filtersFor_numSegment_nil .distance .ge c.distance_min .date .le (by decide),
        filtersFor_numSegment_nil .distance .le c.distance_max .date .le (by decide),
        filtersFor_hazardousSegment_nil c.hazardous .date .le (by decide),
        filtersFor_numSegment_nil .diameter .ge c.diameter_min .date .le (by decide),
        filtersFor_numSegment_nil .diameter .le c.diameter_max .date .le (by decide)]
    simp
  · show filtersFor (create_filters c) .velocity .ge
      = numSegment .velocity .ge c.velocity_min
    simp only [create_filters, filtersFor_append]
    rw [filtersFor_numSegment_self,
        filtersFor_dateSegment_nil .eq c.date .velocity .ge (by decide),
        filtersFor_dateSegment_nil .ge c.start_date .velocity .ge (by decide),
        filtersFor_dateSegment_nil .le c.end_date .velocity .ge (by decide),
        filtersFor_numSegment_nil .velocity .le c.velocity_max .velocity .ge (by decide),
        filtersFor_numSegment_nil .distance .ge c.distance_min .velocity .ge (by decide),
        filtersFor_numSegment_nil .distance .le c.distance_max .velocity .ge (by decide),
        filtersFor_hazardousSegment_nil c.hazardous .velocity .ge (by decide),
        filtersFor_numSegment_nil .diameter .ge c.diameter_min .velocity .ge (by decide),
        filtersFor_numSegment_nil .diameter .le c.diameter_max .velocity .ge (by decide)]
    simp
  · show filtersFor (create_filters c) .velocity .le
      = numSegment .velocity .le c.velocity_max
    simp only [create_filters, filtersFor_append]
    rw [filtersFor_numSegment_self,
        filtersFor_dateSegment_nil .eq c.date .velocity .le (by decide),
        filtersFor_dateSegment_nil .ge c.start_date .velocity .le (by decide),
        filtersFor_dateSegment_nil .le c.end_date .velocity .le (by decide),
        filtersFor_numSegment_nil .velocity .ge c.velocity_min .velocity .le (by decide),
        filtersFor_numSegment_nil .distance .ge c.distance_min .velocity .le (by decide),
        filtersFor_numSegment_nil .distance .le c.distance_max .velocity .le (by decide),
        filtersFor_hazardousSegment_nil c.hazardous .velocity .le (by decide),
        filtersFor_numSegment_nil .diameter .ge c.diameter_min .velocity .le (by decide),
        filtersFor_numSegment_nil .diameter .le c.diameter_max .velocity .le (by decide)]
    simp
  · show filtersFor (create_filters c) .distance .ge
      = numSegment .distance .ge c.distance_min
    simp only [create_filters, filtersFor_append]
    rw [filtersFor_numSegment_self,
        filtersFor_dateSegment_nil .eq c.date .distance .ge (by decide),
        filtersFor_dateSegment_nil .ge c.start_date .distance .ge (by decide),
        filtersFor_dateSegment_nil .le c.end_date .distance .ge (by decide),
        filtersFor_numSegment_nil .velocity .ge c.velocity_min .distance .ge (by decide),
        filtersFor_numSegment_nil .velocity .le c.velocity_max .distance .ge (by decide),
        filtersFor_numSegment_nil .distance .le c.distance_max .distance .ge (by decide),
        filtersFor_hazardousSegment_nil c.hazardous .distance .ge (by decide),
        filtersFor_numSegment_nil .diameter .ge c.diameter_min .distance .ge (by decide),
        filtersFor_numSegment_nil .diameter .le c.diameter_max .distance .ge (by decide)]
    simp
  · show filtersFor (create_filters c) .distance .le
      = numSegment .distance .le c.distance_max
    simp only [create_filters, filtersFor_append]
    rw [filtersFor_numSegment_self,
        filtersFor_dateSegment_nil .eq c.date .distance .le (by decide),
        filtersFor_dateSegment_nil .ge c.start_date .distance .le (by decide),
        filtersFor_dateSegment_nil .le c.end_date .distance .le (by decide),
        filtersFor_numSegment_nil .velocity .ge c.velocity_min .distance .le (by decide),
        filtersFor_numSegment_nil .velocity .le c.velocity_max .distance .le (by decide),
        filtersFor_numSegment_nil .distance .ge c.distance_min .distance .le (by decide),
        filtersFor_hazardousSegment_nil c.hazardous .distance .le (by decide),
        filtersFor_numSegment_nil .diameter .ge c.diameter_min .distance .le (by decide),
        filtersFor_numSegment_nil .diameter .le c.diameter_max .distance .le (by decide)]
    simp
  · show filtersFor (create_filters c) .hazardous .eq
      = hazardousSegment c.hazardous
    simp only [create_filters, filtersFor_append]
    rw [filtersFor_hazardousSegment_self,
        filtersFor_dateSegment_nil .eq c.date .hazardous .eq (by decide),
        filtersFor_dateSegment_nil .ge c.start_date .hazardous .eq (by decide),
        filtersFor_dateSegment_nil .le c.end_date .hazardous .eq (by decide),
        filtersFor_numSegment_nil .velocity .ge c.velocity_min .hazardous .eq (by decide),
        filtersFor_numSegment_nil .velocity .le c.velocity_max .hazardous .eq (by decide),
        filtersFor_numSegment_nil .distance .ge c.distance_min .hazardous .eq (by decide),
        filtersFor_numSegment_nil .distance .le c.distance_max .hazardous .eq (by decide),
        filtersFor_numSegment_nil .diameter .ge c.diameter_min .hazardous .eq (by decide),
        filtersFor_numSegment_nil .diameter .le c.diameter_max .hazardous .eq (by decide)]
    simp
  · show filtersFor (create_filters c) .diameter .ge
      = numSegment .diameter .ge c.diameter_min
    simp only [create_filters, filtersFor_append]
    rw [filtersFor_numSegment_self,
        filtersFor_dateSegment_nil .eq c.date .diameter .ge (by decide),
        filtersFor_dateSegment_nil .ge c.start_date .diameter .ge (by decide),
        filtersFor_dateSegment_nil .le c.end_date .diameter .ge (by decide),
        filtersFor_numSegment_nil .velocity .ge c.velocity_min .diameter .ge (by decide),
        filtersFor_numSegment_nil .velocity .le c.velocity_max .diameter .ge (by decide),
        filtersFor_numSegment_nil .distance .ge c.distance_min .diameter .ge (by decide),
        filtersFor_numSegment_nil .distance .le c.distance_max .diameter .ge (by decide),
        filtersFor_hazardousSegment_nil c.hazardous .diameter .ge (by decide),
        filtersFor_numSegment_nil .diameter .le c.diameter_max .diameter .ge (by decide)]
    simp
  · show filtersFor (create_filters c) .diameter .le
      = numSegment .diameter .le c.diameter_max
    simp only [create_filters, filtersFor_append]
    rw [filtersFor_numSegment_self,
        filtersFor_dateSegment_nil .eq c.date .diameter .le (by decide),
        filtersFor_dateSegment_nil .ge c.start_date .diameter .le (by decide),
        filtersFor_dateSegment_nil .le c.end_date .diameter .le (by decide),
        filtersFor_numSegment_nil .velocity .ge c.velocity_min .diameter .le (by decide),
        filtersFor_numSegment_nil .velocity .le c.velocity_max .diameter .le (by decide),
        filtersFor_numSegment_nil .distance .ge c.distance_min .diameter .le (by decide),
        filtersFor_numSegment_nil .distance .le c.distance_max .diameter .le (by decide),
        filtersFor_hazardousSegment_nil c.hazardous .diameter .le (by decide),
        filtersFor_numSegment_nil .diameter .ge c.diameter_min .diameter .le (by decide)]
    simp
  · have h1 := numSegment_all_valid .velocity .ge c.velocity_min (by decide)
    have h2 := numSegment_all_valid .velocity .le c.velocity_max (by decide)
    have h3 := numSegment_all_valid .distance .ge c.distance_min (by decide)
    have h4 := numSegment_all_valid .distance .le c.distance_max (by decide)
    have h5 := numSegment_all_valid .diameter .ge c.diameter_min (by decide)
    have h6 := numSegment_all_valid .diameter .le c.diameter_max (by decide)
    simp [create_filters, List.all_append, dateSegment_all_valid,
          hazardousSegment_all_valid, h1, h2, h3, h4, h5, h6]

/-- C3 (counterexample): supplying only a zero-valued minimum-distance
criterion produces no predicate at all, where the claim requires
exactly one predicate for this non-absent criterion. -/
theorem create_filters_zero_min_counterexample :
    zeroDistMinCriteria.distance_min = some 0 ∧
    create_filters zeroDistMinCriteria = [] :=
  ⟨rfl, rfl⟩

/-- Lemma: a linear scan with `find?` either misses everywhere or
returns the element at the first matching position. -/
theorem find_first_char {α : Type} (l : List α) (p : α → Bool) :
    (l.find? p = none ∧ ∀ x ∈ l, p x = false) ∨
    (∃ i, ∃ hi : i < l.length,
      l.find? p = some (l.get ⟨i, hi⟩) ∧ p (l.get ⟨i, hi⟩) = true ∧
      ∀ j, (hj : j < l.length) → j < i → p (l.get ⟨j, hj⟩) = false) := by
  induction l with
  | nil => left; exact ⟨rfl, by simp⟩
  | cons x xs ih =>
    cases hp : p x with
    | true =>
      right
      refine ⟨0, by simp, ?_, hp, ?_⟩
      · simp [List.find?, hp]
      · intro j hj hlt; exact absurd hlt (Nat.not_lt_zero j)
    | false =>
      have hstep : (x :: xs).find? p = xs.find? p := by
        simp [List.find?, hp]
      rcases ih with ⟨hn, hall⟩ | ⟨i, hi, hfind, hpi, hprev⟩
      · left
        refine ⟨by rw [hstep, hn], ?_⟩
        intro y hy
        rcases List.mem_cons.mp hy with rfl | hmem
        · exact hp
        · exact hall y hmem
      · right
        refine ⟨i + 1, Nat.succ_lt_succ hi, ?_, hpi, ?_⟩
        · rw [hstep, hfind]; rfl
        · intro j hj hlt
          cases j with
          | zero => exact hp
          | succ j2 =>
            exact hprev j2 (Nat.lt_of_succ_lt_succ hj) (Nat.lt_of_succ_lt_succ hlt)

/-- C4 (amended): name lookup returns the first NEO whose stored name
exactly equals the Python-capitalized query (first letter title-cased,
all remaining letters lowercased), and a not-found value when no stored
name equals that key. -/
theorem get_neo_by_name_spec (db : NEODatabase) (name : String) :
    (db.get_neo_by_name name = none ∧
      ∀ neo ∈ db.neos, neo.name ≠ some (pyCapitalize name)) ∨
    (∃ i, ∃ hi : i < db.neos.length,
      db.get_neo_by_name name = some (db.neos.get ⟨i, hi⟩) ∧
      (db.neos.get ⟨i, hi⟩).name = some (pyCapitalize name) ∧
      ∀ j, (hj : j < db.neos.length) → j < i →
        (db.neos.get ⟨j, hj⟩).name ≠ some (pyCapitalize name)) := by
  rcases find_first_char db.neos
      (fun neo => neo.name == some (pyCapitalize name)) with
    ⟨hn, hall⟩ | ⟨i, hi, hfind, hpi, hprev⟩
  · left
    refine ⟨hn, ?_⟩
    intro neo hmem
    have := hall neo hmem
    simpa using this
  · right
    refine ⟨i, hi, hfind, by simpa using hpi, ?_⟩
    intro j hj hlt
    have := hprev j hj hlt
    simpa using this

/-- C4 (counterexample): the stored name "AB" equals the query "aB"
with its first letter capitalized and the rest unchanged, yet the
lookup misses, because Python capitalize also lowercases the rest. -/
theorem get_neo_by_name_rest_unchanged_counterexample :
    neoUpperName ∈ dbUpperName.neos ∧
    neoUpperName.name = some (capFirstRestUnchanged "aB") ∧
    dbUpperName.get_neo_by_name "aB" = none := by
  refine ⟨by simp [dbUpperName], ?_, ?_⟩ <;> decide

/-- C6: when designations are unique, designation lookup returns the
NEO whose designation equals the uppercased query, and a not-found
value when no designation equals it. -/
theorem get_neo_by_designation_spec (db : NEODatabase) (d : String)
    (huniq : ∀ n1 ∈ db.neos, ∀ n2 ∈ db.neos,
      n1.designation = n2.designation → n1 = n2) :
    (∀ neo ∈ db.neos, neo.designation = pyUpper d →
      db.get_neo_by_designation d = some neo) ∧
    ((∀ neo ∈ db.neos, neo.designation ≠ pyUpper d) →
      db.get_neo_by_designation d = none) := by
  rcases find_first_char db.neos
      (fun neo => neo.designation == pyUpper d) with
    ⟨hn, hall⟩ | ⟨i, hi, hfind, hpi, hprev⟩
  · constructor
    · intro neo hmem hdes
      have := hall neo hmem
      rw [hdes] at this
      simp at this
    · intro _
      exact hn
  · have hmem_i : db.neos.get ⟨i, hi⟩ ∈ db.neos := List.get_mem db.neos i hi
    have hdes_i : (db.neos.get ⟨i, hi⟩).designation = pyUpper d := by
      simpa using hpi
    constructor
    · intro neo hmem hdes
      have heq : db.neos.get ⟨i, hi⟩ = neo :=
        huniq _ hmem_i _ hmem (by rw [hdes_i, hdes])
      show db.neos.find? (fun neo => neo.designation == pyUpper d) = some neo
      rw [hfind, heq]
    · intro hnone
      exact absurd hdes_i (hnone _ hmem_i)

/-- Witness for C6 at a concrete database and lowercase query hitting
the stored uppercase designation. -/
theorem get_neo_by_designation_spec_witness :
    (∀ n1 ∈ dbUpperName.neos, ∀ n2 ∈ dbUpperName.neos,
      n1.designation = n2.designation → n1 = n2) ∧
    ((∀ neo ∈ dbUpperName.neos, neo.designation = pyUpper "x1" →
        dbUpperName.get_neo_by_designation "x1" = some neo) ∧
     ((∀ neo ∈ dbUpperName.neos, neo.designation ≠ pyUpper "x1") →
        dbUpperName.get_neo_by_designation "x1" = none)) :=
  ⟨by decide, get_neo_by_designation_spec dbUpperName "x1" (by decide)⟩

/-- Lemma: deciding a bounded forall over a cons splits into the head
verdict and the tail verdict. -/
theorem decide_forall_cons {α : Type} {P : α → Prop} [DecidablePred P]
    (f : α) (rest : List α) :
    decide (∀ x ∈ f :: rest, P x)
      = (decide (P f) && decide (∀ x ∈ rest, P x)) := by
  by_cases h1 : P f <;> by_cases h2 : ∀ x ∈ rest, P x <;>
    simp [List.forall_mem_cons, h1, h2]

/-- Lemma: when no filter raises on the approach, the check loop
computes the conjunction of the flag with all filter verdicts. -/
theorem checkLoop_ok (neos : List NearEarthObject) (a : CloseApproach)
    (filters : List AttributeFilter) (m : Bool)
    (h : ∀ f ∈ filters, (evalFilter neos f a).isOk = true) :
    checkLoop neos a filters m =
      .ok (m && decide (∀ f ∈ filters, evalFilter neos f a = .ok true)) := by
  induction filters generalizing m with
  | nil => simp [checkLoop]
  | cons f rest ih =>
    have hf : (evalFilter neos f a).isOk = true := h f (List.mem_cons_self f rest)
    have hrest : ∀ g ∈ rest, (evalFilter neos g a).isOk = true :=
      fun g hg => h g (List.mem_cons_of_mem f hg)
    cases hb : evalFilter neos f a with
    | error e => rw [hb] at hf; simp [Except.isOk, Except.toBool] at hf
    | ok b =>
      have hstep : checkLoop neos a (f :: rest) m
          = checkLoop neos a rest (if b then m else false) := by
        rw [checkLoop, hb]
      rw [hstep, ih _ hrest, decide_forall_cons]
      cases b with
      | true =>
        have hd : decide (evalFilter neos f a = Except.ok true) = true := by
          simp [hb]
        rw [hd]
        simp
      | false =>
        have hd : decide (evalFilter neos f a = Except.ok true) = false := by
          simp [hb]
        rw [hd]
        simp

/-- Lemma: when no filter raises on any listed approach, the query loop
keeps, in stored order, exactly the approaches passing every filter. -/
theorem queryLoop_filter (neos : List NearEarthObject)
    (filters : List AttributeFilter) (l : List CloseApproach)
    (h : ∀ f ∈ filters, ∀ a ∈ l, (evalFilter neos f a).isOk = true) :
    queryLoop neos filters l =
      .ok (l.filter
        (fun a => decide (∀ f ∈ filters, evalFilter neos f a = .ok true))) := by
  induction l with
  | nil => simp [queryLoop]
  | cons a rest ih =>
    have ha : ∀ f ∈ filters, (evalFilter neos f a).isOk = true :=
      fun f hf => h f hf a (List.mem_cons_self a rest)
    have hrest : ∀ f ∈ filters, ∀ b ∈ rest, (evalFilter neos f b).isOk = true :=
      fun f hf b hb => h f hf b (List.mem_cons_of_mem a hb)
    rw [queryLoop, check_approach_against_filters,
        checkLoop_ok neos a filters true ha, ih hrest]
    cases hdec : decide (∀ f ∈ filters, evalFilter neos f a = Except.ok true) with
    | true => simp [List.filter_cons, hdec]
    | false => simp [List.filter_cons, hdec]

/-- C1: for any filter collection none of whose members raises on the
stored approaches, `query` yields, in stored order, exactly the
approaches for which every filter evaluates true; with no filters it
yields every approach unchanged. -/
theorem query_yields_matching (db : NEODatabase)
    (filters : List AttributeFilter)
    (h : ∀ f ∈ filters, ∀ a ∈ db.approaches,
      (evalFilter db.neos f a).isOk = true) :
    db.query filters =
      .ok (db.approaches.filter
        (fun a => decide (∀ f ∈ filters, evalFilter db.neos f a = .ok true))) := by
  unfold NEODatabase.query
  by_cases he : filters.isEmpty
  · have hnil : filters = [] := List.isEmpty_iff.mp he
    subst hnil
    simp
  · rw [if_neg he]
    exact queryLoop_filter db.neos filters db.approaches h

/-- Witness for C1: the concrete database and the distance-at-most-5
filter collection. -/
theorem query_yields_matching_witness :
    (∀ f ∈ filtersW, ∀ a ∈ dbW.approaches,
      (evalFilter dbW.neos f a).isOk = true) ∧
    dbW.query filtersW =
      .ok (dbW.approaches.filter
        (fun a => decide (∀ f ∈ filtersW, evalFilter dbW.neos f a = .ok true))) :=
  ⟨by decide, query_yields_matching dbW filtersW (by decide)⟩

/-- Lemma: a designation matching no NEO of the remaining list leaves
the dict entry as the accumulator has it. -/
theorem buildDictFrom_no_match (l : List NearEarthObject) (i : Nat)
    (m : PyDict) (d : String)
    (h : ∀ idx, (hidx : idx < l.length) → (l.get ⟨idx, hidx⟩).designation ≠ d) :
    buildDictFrom i l m d = m d := by
  induction l generalizing i m with
  | nil => rfl
  | cons neo rest ih =>
    have hhead : neo.designation ≠ d := h 0 (Nat.succ_pos rest.length)
    rw [buildDictFrom, ih]
    · simp [Ne.symm hhead]
    · intro idx hidx
      exact h (idx + 1) (Nat.succ_lt_succ hidx)

/-- Lemma: the dict maps a designation to the position of the last NEO
of the list bearing it (later assignments overwrite earlier ones). -/
theorem buildDictFrom_last_match (l : List NearEarthObject) (i : Nat)
    (m : PyDict) (d : String) (j : Nat) (hj : j < l.length)
    (hdes : (l.get ⟨j, hj⟩).designation = d)
    (hlast : ∀ k, (hk : k < l.length) → j < k → (l.get ⟨k, hk⟩).designation ≠ d) :
    buildDictFrom i l m d = some (i + j) := by
  induction l generalizing i m j with
  | nil => exact absurd hj (Nat.not_lt_zero j)
  | cons neo rest ih =>
    cases j with
    | zero =>
      rw [buildDictFrom, buildDictFrom_no_match]
      · have hd : neo.designation = d := hdes
        simp [hd]
      · intro idx hidx
        exact hlast (idx + 1) (Nat.succ_lt_succ hidx) (Nat.succ_pos idx)
    | succ j2 =>
      rw [buildDictFrom]
      have := ih (i + 1)
        (fun k => if k = neo.designation then some i else m k)
        j2 (Nat.lt_of_succ_lt_succ hj) hdes
        (fun k hk hlt => hlast (k + 1) (Nat.succ_lt_succ hk) (Nat.succ_lt_succ hlt))
      rw [this]
      congr 1
      omega

/-- Lemma: a position the dict reports came either from the list (a NEO
there bears the designation) or from the accumulator. -/
theorem buildDictFrom_some (l : List NearEarthObject) (i : Nat)
    (m : PyDict) (d : String) (v : Nat)
    (h : buildDictFrom i l m d = some v) :
    (∃ j, ∃ hj : j < l.length,
      (l.get ⟨j, hj⟩).designation = d ∧ v = i + j) ∨ m d = some v := by
  induction l generalizing i m with
  | nil => right; exact h
  | cons neo rest ih =>
    rw [buildDictFrom] at h
    rcases ih _ _ h with ⟨j, hj, hdes, hv⟩ | hm
    · left
      exact ⟨j + 1, Nat.succ_lt_succ hj, hdes, by omega⟩
    · by_cases hd : d = neo.designation
      · left
        refine ⟨0, Nat.succ_pos rest.length, hd.symm, ?_⟩
        rw [if_pos hd] at hm
        have hiv : i = v := Option.some.inj hm
        omega
      · right
        rw [if_neg hd] at hm
        exact hm

/-- Lemma: a dict miss means no NEO of the list bears the designation
and the accumulator missed too. -/
theorem buildDictFrom_none (l : List NearEarthObject) (i : Nat)
    (m : PyDict) (d : String)
    (h : buildDictFrom i l m d = none) :
    (∀ idx, (hidx : idx < l.length) → (l.get ⟨idx, hidx⟩).designation ≠ d) ∧
      m d = none := by
  induction l generalizing i m with
  | nil => exact ⟨fun idx hidx => absurd hidx (Nat.not_lt_zero idx), h⟩
  | cons neo rest ih =>
    rw [buildDictFrom] at h
    obtain ⟨hrest, hm⟩ := ih _ _ h
    have hd : d ≠ neo.designation := by
      intro hcon
      rw [if_pos hcon] at hm
      cases hm
    rw [if_neg hd] at hm
    refine ⟨?_, hm⟩
    intro idx hidx
    cases idx with
    | zero => exact Ne.symm hd
    | succ idx2 => exact hrest idx2 (Nat.lt_of_succ_lt_succ hidx)

/-- Lemma: every position the finished dict reports is the position of
a NEO bearing the looked-up designation. -/
theorem buildDict_some (neos : List NearEarthObject) (d : String) (v : Nat)
    (h : buildDict neos d = some v) :
    ∃ hv : v < neos.length, (neos.get ⟨v, hv⟩).designation = d := by
  rcases buildDictFrom_some neos 0 _ d v h with ⟨j, hj, hdes, hv⟩ | hm
  · have : v = j := by omega
    subst this
    exact ⟨hj, hdes⟩
  · cases hm

/-- Lemma: a designation borne by some NEO is in the finished dict. -/
theorem buildDict_isSome (neos : List NearEarthObject) (d : String)
    (j : Nat) (hj : j < neos.length)
    (hdes : (neos.get ⟨j, hj⟩).designation = d) :
    buildDict neos d ≠ none := by
  intro hnone
  exact absurd hdes ((buildDictFrom_none neos 0 _ d hnone).1 j hj)

/-- Lemma: point update preserves length. -/
theorem updateAt_length (l : List NearEarthObject) (n : Nat)
    (f : NearEarthObject → NearEarthObject) :
    (updateAt l n f).length = l.length := by
  induction l generalizing n with
  | nil => rfl
  | cons x xs ih =>
    cases n with
    | zero => rfl
    | succ n2 => simpa [updateAt] using ih n2

/-- Lemma: point update rewrites the updated position. -/
theorem updateAt_getElem_self (l : List NearEarthObject) (n : Nat)
    (f : NearEarthObject → NearEarthObject) :
    (updateAt l n f)[n]? = (l[n]?).map f := by
  induction l generalizing n with
  | nil => cases n <;> rfl
  | cons x xs ih =>
    cases n with
    | zero => simp [updateAt]
    | succ n2 => simpa [updateAt] using ih n2

/-- Lemma: point update leaves every other position alone. -/
theorem updateAt_getElem_other (l : List NearEarthObject) (n : Nat)
    (f : NearEarthObject → NearEarthObject) (j : Nat) (hjn : j ≠ n) :
    (updateAt l n f)[j]? = l[j]? := by
  induction l generalizing n j with
  | nil => cases n <;> rfl
  | cons x xs ih =>
    cases n with
    | zero =>
      cases j with
      | zero => exact absurd rfl hjn
      | succ j2 => simp [updateAt]
    | succ n2 =>
      cases j with
      | zero => simp [updateAt]
      | succ j2 => simpa [updateAt] using ih n2 j2 (fun hc => hjn (by rw [hc]))

/-- Lemma: each listed approach appears in the enumeration at its
offset position. -/
theorem mem_enumFromIdx_of (as : List CloseApproach) (k t : Nat)
    (ht : t < as.length) :
    (k + t, as.get ⟨t, ht⟩) ∈ enumFromIdx k as := by
  induction as generalizing k t with
  | nil => exact absurd ht (Nat.not_lt_zero t)
  | cons a rest ih =>
    cases t with
    | zero => simp [enumFromIdx]
    | succ t2 =>
      have := ih (k + 1) t2 (Nat.lt_of_succ_lt_succ ht)
      have harith : k + 1 + t2 = k + (t2 + 1) := by omega
      rw [harith] at this
      exact List.mem_cons_of_mem _ this

/-- Lemma: every member of the enumeration is a listed approach at its
offset position. -/
theorem mem_enumFromIdx (as : List CloseApproach) (k : Nat)
    (p : Nat × CloseApproach) (h : p ∈ enumFromIdx k as) :
    ∃ t, ∃ ht : t < as.length, p = (k + t, as.get ⟨t, ht⟩) := by
  induction as generalizing k with
  | nil => cases h
  | cons a rest ih =>
    rcases List.mem_cons.mp h with rfl | hmem
    · exact ⟨0, Nat.succ_pos rest.length, by simp⟩
    · obtain ⟨t, ht, hp⟩ := ih (k + 1) hmem
      refine ⟨t + 1, Nat.succ_lt_succ ht, ?_⟩
      rw [hp]
      have harith : k + 1 + t = k + (t + 1) := by omega
      rw [harith]
      rfl

/-- Lemma: the positions of the enumeration are pairwise distinct. -/
theorem nodup_enumFromIdx_fst (as : List CloseApproach) (k : Nat) :
    ((enumFromIdx k as).map Prod.fst).Nodup := by
  induction as generalizing k with
  | nil => simp [enumFromIdx]
  | cons a rest ih =>
    rw [enumFromIdx]
    refine List.nodup_cons.mpr ⟨?_, ih (k + 1)⟩
    intro hmem
    rcases List.mem_map.mp hmem with ⟨p, hp, hfst⟩
    obtain ⟨t, ht, hpt⟩ := mem_enumFromIdx rest (k + 1) p hp
    rw [hpt] at hfst
    simp at hfst
    omega

/-- Lemma: the positions appended to one NEO are pairwise distinct. -/
theorem nodup_linkTargets (dict : PyDict) (k : Nat)
    (as : List CloseApproach) (j : Nat) :
    (linkTargets dict k as j).Nodup := by
  refine (nodup_enumFromIdx_fst as k).sublist ?_
  exact ((enumFromIdx k as).filter_sublist).map Prod.fst

/-- Lemma: the linkage loop keeps as many approaches as it was given. -/
theorem linkApproaches_fst_length (dict : PyDict) (k : Nat)
    (as : List CloseApproach) (neos : List NearEarthObject) :
    (linkApproaches dict k as neos).1.length = as.length := by
  induction as generalizing k neos with
  | nil => rfl
  | cons a rest ih =>
    rw [linkApproaches]
    cases dict a.designation with
    | some i => simpa [linkApproaches] using ih (k + 1) _
    | none => simpa [linkApproaches] using ih (k + 1) neos

/-- Lemma: the linkage loop rewrites each approach independently: when
the dict knows its designation the `neo` back-reference is set to the
mapped position, otherwise the approach is untouched. -/
theorem linkApproaches_fst_getElem (dict : PyDict) (k : Nat)
    (as : List CloseApproach) (neos : List NearEarthObject) (t : Nat) :
    (linkApproaches dict k as neos).1[t]? =
      (as[t]?).map (fun a =>
        match dict a.designation with
        | some i => { a with neo := some i }
        | none => a) := by
  induction as generalizing k neos t with
  | nil => cases t <;> rfl
  | cons a rest ih =>
    rw [linkApproaches]
    cases hda : dict a.designation with
    | some i =>
      cases t with
      | zero => simp [hda]
      | succ t2 => simpa using ih (k + 1) _ t2
    | none =>
      cases t with
      | zero => simp [hda]
      | succ t2 => simpa using ih (k + 1) neos t2

/-- Lemma: the linkage loop preserves the number of NEOs. -/
theorem linkApproaches_snd_length (dict : PyDict) (k : Nat)
    (as : List CloseApproach) (neos : List NearEarthObject) :
    (linkApproaches dict k as neos).2.length = neos.length := by
  induction as generalizing k neos with
  | nil => rfl
  | cons a rest ih =>
    rw [linkApproaches]
    cases dict a.designation with
    | some i =>
      have := ih (k + 1) (updateAt neos i
        (fun neo => { neo with approaches := neo.approaches ++ [k] }))
      simpa [updateAt_length] using this
    | none => simpa using ih (k + 1) neos

/-- Lemma: after the linkage loop, NEO `j` is the input NEO with the
positions of exactly its dict-matched approaches appended, in input
order; every other field is untouched. -/
theorem linkApproaches_snd_getElem (dict : PyDict) (k : Nat)
    (as : List CloseApproach) (neos : List NearEarthObject) (j : Nat)
    (hdict : ∀ d i, dict d = some i → i < neos.length) :
    (linkApproaches dict k as neos).2[j]? =
      (neos[j]?).map (fun neo =>
        { neo with approaches := neo.approaches ++ linkTargets dict k as j }) := by
  induction as generalizing k neos with
  | nil =>
    have h0 : linkTargets dict k [] j = [] := rfl
    rw [h0]
    cases hj : neos[j]? with
    | none => simp [linkApproaches, hj]
    | some neo => simp [linkApproaches, hj]
  | cons a rest ih =>
    rw [linkApproaches]
    cases hda : dict a.designation with
    | none =>
      have ihh := ih (k + 1) neos hdict
      have hLT : linkTargets dict k (a :: rest) j
          = linkTargets dict (k + 1) rest j := by
        simp [linkTargets, enumFromIdx, hda]
      simp only [ihh, hLT]
    | some i =>
      have hdict1 : ∀ d i2, dict d = some i2 →
          i2 < (updateAt neos i
            (fun neo => { neo with approaches := neo.approaches ++ [k] })).length := by
        intro d i2 h2
        rw [updateAt_length]
        exact hdict d i2 h2
      have ihh := ih (k + 1)
        (updateAt neos i
          (fun neo => { neo with approaches := neo.approaches ++ [k] })) hdict1
      by_cases hji : j = i
      · subst hji
        have hLT : linkTargets dict k (a :: rest) j
            = k :: linkTargets dict (k + 1) rest j := by
          simp [linkTargets, enumFromIdx, hda]
        simp only [ihh, hLT, updateAt_getElem_self]
        cases neos[j]? with
        | none => rfl
        | some neo => simp
      · have hne : ((some i : Option Nat) == some j) = false := by
          rw [beq_eq_false_iff_ne]
          intro hc
          exact hji (Option.some.inj hc).symm
        have hLT : linkTargets dict k (a :: rest) j
            = linkTargets dict (k + 1) rest j := by
          simp [linkTargets, enumFromIdx, hda, hne]
        simp only [ihh, hLT, updateAt_getElem_other _ _ _ _ hji]

/-- Lemma: an approach whose designation the dict maps to NEO `j` has
its position recorded among the appends for NEO `j`. -/
theorem linkTargets_mem_of (dict : PyDict) (as : List CloseApproach)
    (t : Nat) (ht : t < as.length) (j : Nat)
    (hmatch : dict (as.get ⟨t, ht⟩).designation = some j) :
    t ∈ linkTargets dict 0 as j := by
  unfold linkTargets
  apply List.mem_map.mpr
  refine ⟨(0 + t, as.get ⟨t, ht⟩), ?_, by simp⟩
  apply List.mem_filter.mpr
  refine ⟨mem_enumFromIdx_of as 0 t ht, ?_⟩
  simpa using hmatch

/-- Lemma: every position recorded among the appends for NEO `j` is the
position of an approach whose designation the dict maps to `j`. -/
theorem mem_linkTargets (dict : PyDict) (k : Nat) (as : List CloseApproach)
    (j t : Nat) (h : t ∈ linkTargets dict k as j) :
    ∃ t2, ∃ ht2 : t2 < as.length,
      t = k + t2 ∧ dict (as.get ⟨t2, ht2⟩).designation = some j := by
  unfold linkTargets at h
  rcases List.mem_map.mp h with ⟨p, hp, hfst⟩
  rcases List.mem_filter.mp hp with ⟨hmem, hcond⟩
  obtain ⟨t2, ht2, hpt⟩ := mem_enumFromIdx as k p hmem
  subst hpt
  refine ⟨t2, ht2, hfst.symm, ?_⟩
  simpa using hcond

/-- Lemma: a matched approach is appended to its NEO exactly once. -/
theorem count_linkTargets (dict : PyDict) (as : List CloseApproach)
    (t : Nat) (ht : t < as.length) (j : Nat)
    (hmatch : dict (as.get ⟨t, ht⟩).designation = some j) :
    List.count t (linkTargets dict 0 as j) = 1 :=
  List.count_eq_one_of_mem (nodup_linkTargets dict 0 as j)
    (linkTargets_mem_of dict as t ht j hmatch)

/-- Lemma: a matched approach is appended to no other NEO. -/
theorem not_mem_linkTargets (dict : PyDict) (as : List CloseApproach)
    (t : Nat) (ht : t < as.length) (j j2 : Nat)
    (hmatch : dict (as.get ⟨t, ht⟩).designation = some j) (hne : j2 ≠ j) :
    t ∉ linkTargets dict 0 as j2 := by
  intro hmem
  obtain ⟨t2, ht2, hteq, hd2⟩ := mem_linkTargets dict 0 as j2 t hmem
  have ht2t : t2 = t := by omega
  subst ht2t
  rw [hmatch] at hd2
  exact hne (Option.some.inj hd2).symm

/-- C2: after construction from freshly built entities, every approach
whose designation some NEO bears is linked: its `neo` back-reference
names a NEO bearing that designation, its position appears exactly once
in the `approaches` sequence of that NEO and in no other, while every
approach whose designation no NEO bears keeps `neo` unset; no approach
is dropped or added. -/
theorem database_init_links (neos : List NearEarthObject)
    (approaches : List CloseApproach)
    (hneos : ∀ neo ∈ neos, neo.approaches = [])
    (happs : ∀ a ∈ approaches, a.neo = none) :
    (NEODatabase.init neos approaches).neos.length = neos.length ∧
    (NEODatabase.init neos approaches).approaches.length = approaches.length ∧
    ∀ t, (ht : t < approaches.length) →
      ((∃ i, ∃ hi : i < neos.length,
          (neos.get ⟨i, hi⟩).designation = (approaches.get ⟨t, ht⟩).designation) →
        ∃ j, ∃ hj : j < (NEODatabase.init neos approaches).neos.length,
          ((NEODatabase.init neos approaches).approaches[t]?).map CloseApproach.neo
            = some (some j) ∧
          ((NEODatabase.init neos approaches).neos.get ⟨j, hj⟩).designation
            = (approaches.get ⟨t, ht⟩).designation ∧
          List.count t
            ((NEODatabase.init neos approaches).neos.get ⟨j, hj⟩).approaches = 1 ∧
          ∀ j2, (hj2 : j2 < (NEODatabase.init neos approaches).neos.length) →
            j2 ≠ j →
            t ∉ ((NEODatabase.init neos approaches).neos.get ⟨j2, hj2⟩).approaches) ∧
      ((∀ i, (hi : i < neos.length) →
          (neos.get ⟨i, hi⟩).designation ≠ (approaches.get ⟨t, ht⟩).designation) →
        ((NEODatabase.init neos approaches).approaches[t]?).map CloseApproach.neo
          = some none) := by
  have hneos_eq : (NEODatabase.init neos approaches).neos
      = (linkApproaches (buildDict neos) 0 approaches neos).2 := rfl
  have happs_eq : (NEODatabase.init neos approaches).approaches
      = (linkApproaches (buildDict neos) 0 approaches neos).1 := rfl
  have hdict : ∀ d i, buildDict neos d = some i → i < neos.length := by
    intro d i h
    obtain ⟨hv, _⟩ := buildDict_some neos d i h
    exact hv
  refine ⟨?_, ?_, ?_⟩
  · rw [hneos_eq, linkApproaches_snd_length]
  · rw [happs_eq, linkApproaches_fst_length]
  · intro t ht
    have hat : approaches[t]? = some (approaches.get ⟨t, ht⟩) := by
      rw [List.getElem?_eq_getElem ht]
      rfl
    constructor
    · intro hex
      have hsome : buildDict neos (approaches.get ⟨t, ht⟩).designation ≠ none := by
        obtain ⟨i, hi, hdes⟩ := hex
        exact buildDict_isSome neos _ i hi hdes
      cases hbd : buildDict neos (approaches.get ⟨t, ht⟩).designation with
      | none => exact absurd hbd hsome
      | some j =>
        obtain ⟨hjlen, hjdes⟩ := buildDict_some neos _ j hbd
        have hjlen2 : j < (NEODatabase.init neos approaches).neos.length := by
          rw [hneos_eq, linkApproaches_snd_length]
          exact hjlen
        have hnj : (NEODatabase.init neos approaches).neos[j]?
            = some { neos.get ⟨j, hjlen⟩ with
                approaches := (neos.get ⟨j, hjlen⟩).approaches
                  ++ linkTargets (buildDict neos) 0 approaches j } := by
          rw [hneos_eq, linkApproaches_snd_getElem _ _ _ _ _ hdict,
              List.getElem?_eq_getElem hjlen]
          rfl
        have hgetj : (NEODatabase.init neos approaches).neos.get ⟨j, hjlen2⟩
            = { neos.get ⟨j, hjlen⟩ with
                approaches := (neos.get ⟨j, hjlen⟩).approaches
                  ++ linkTargets (buildDict neos) 0 approaches j } := by
          have h2 := hnj
          rw [List.getElem?_eq_getElem hjlen2] at h2
          exact Option.some.inj h2
        have hfreshj : (neos.get ⟨j, hjlen⟩).approaches = [] :=
          hneos _ (List.get_mem neos j hjlen)
        refine ⟨j, hjlen2, ?_, ?_, ?_, ?_⟩
        · rw [happs_eq, linkApproaches_fst_getElem, hat]
          have hbd2 : buildDict neos approaches[t].designation = some j := hbd
          simp [hbd2]
        · rw [hgetj]
          exact hjdes
        · rw [hgetj]
          show List.count t ((neos.get ⟨j, hjlen⟩).approaches
            ++ linkTargets (buildDict neos) 0 approaches j) = 1
          rw [hfreshj]
          simpa using count_linkTargets (buildDict neos) approaches t ht j hbd
        · intro j2 hj2 hne
          have hj2len : j2 < neos.length := by
            rw [hneos_eq, linkApproaches_snd_length] at hj2
            exact hj2
          have hnj2 : (NEODatabase.init neos approaches).neos[j2]?
              = some { neos.get ⟨j2, hj2len⟩ with
                  approaches := (neos.get ⟨j2, hj2len⟩).approaches
                    ++ linkTargets (buildDict neos) 0 approaches j2 } := by
            rw [hneos_eq, linkApproaches_snd_getElem _ _ _ _ _ hdict,
                List.getElem?_eq_getElem hj2len]
            rfl
          have hgetj2 : (NEODatabase.init neos approaches).neos.get ⟨j2, hj2⟩
              = { neos.get ⟨j2, hj2len⟩ with
                  approaches := (neos.get ⟨j2, hj2len⟩).approaches
                    ++ linkTargets (buildDict neos) 0 approaches j2 } := by
            have h2 := hnj2
            rw [List.getElem?_eq_getElem hj2] at h2
            exact Option.some.inj h2
          rw [hgetj2]
          have hfresh2 : (neos.get ⟨j2, hj2len⟩).approaches = [] :=
            hneos _ (List.get_mem neos j2 hj2len)
          intro hmem
          apply not_mem_linkTargets (buildDict neos) approaches t ht j j2 hbd hne
          show t ∈ linkTargets (buildDict neos) 0 approaches j2
          have hmem2 : t ∈ (neos.get ⟨j2, hj2len⟩).approaches
              ++ linkTargets (buildDict neos) 0 approaches j2 := hmem
          rw [hfresh2] at hmem2
          simpa using hmem2
    · intro hno
      have hbd : buildDict neos (approaches.get ⟨t, ht⟩).designation = none := by
        unfold buildDict
        exact buildDictFrom_no_match neos 0 _ _ hno
      rw [happs_eq, linkApproaches_fst_getElem, hat]
      have hbd2 : buildDict neos approaches[t].designation = none := hbd
      have hneo : approaches[t].neo = none :=
        happs _ (List.get_mem approaches t ht)
      simp [hbd2, hneo]

/-- C7: when a designation is borne by several NEOs, the dict maps it
to the last input position bearing it, and every approach with that
designation is linked to that last NEO. -/
theorem duplicate_designation_last_wins (neos : List NearEarthObject)
    (approaches : List CloseApproach) (d : String) (i j : Nat)
    (hi : i < neos.length) (hj : j < neos.length) (hij : i < j)
    (hdi : (neos.get ⟨i, hi⟩).designation = d)
    (hdj : (neos.get ⟨j, hj⟩).designation = d)
    (hlast : ∀ k, (hk : k < neos.length) → j < k →
      (neos.get ⟨k, hk⟩).designation ≠ d) :
    buildDict neos d = some j ∧
    ∀ t, (ht : t < approaches.length) →
      (approaches.get ⟨t, ht⟩).designation = d →
      (((NEODatabase.init neos approaches).approaches)[t]?).map CloseApproach.neo
        = some (some j) := by
  have hbd : buildDict neos d = some j := by
    unfold buildDict
    have := buildDictFrom_last_match neos 0 (fun _ => none) d j hj hdj hlast
    simpa using this
  refine ⟨hbd, ?_⟩
  intro t ht hdes
  have happs_eq : (NEODatabase.init neos approaches).approaches
      = (linkApproaches (buildDict neos) 0 approaches neos).1 := rfl
  have hat : approaches[t]? = some (approaches.get ⟨t, ht⟩) := by
    rw [List.getElem?_eq_getElem ht]
    rfl
  rw [happs_eq, linkApproaches_fst_getElem, hat]
  have hbd2 : buildDict neos approaches[t].designation = some j := by
    have hd2 : approaches[t].designation = d := hdes
    rw [hd2, hbd]
  simp [hbd2]

/-- Witness for C2: the concrete database links its four approaches. -/
theorem database_init_links_witness :
    (NEODatabase.init [neoW, neoW2, neoW2dup]
      [appW1, appW2, appOrphan, appDup]).neos.length
      = [neoW, neoW2, neoW2dup].length :=
  (database_init_links [neoW, neoW2, neoW2dup] [appW1, appW2, appOrphan, appDup]
    (by decide) (by decide)).1

/-- Witness for C7: the duplicated designation of the concrete database
maps to the later NEO, position 2. -/
theorem duplicate_designation_last_wins_witness :
    buildDict [neoW, neoW2, neoW2dup] "2020 AB" = some 2 :=
  (duplicate_designation_last_wins [neoW, neoW2, neoW2dup]
    [appW1, appW2, appOrphan, appDup] "2020 AB" 1 2
    (by decide) (by decide) (by decide) (by decide) (by decide)
    (by
      intro k hk hlt
      have hk3 : k < 3 := by simpa using hk
      exact absurd hlt (by omega))).1
